import Mathlib

/-!
Verification of the term-accessor fragment in src/blaze/expr/utils.h and of
the term-engine design specified around it.

The source file defines two C functions over ATerm values (the ATerm
library's tagged terms):

* subterms(t): switches on GET_TYPE(t->header); the case labels AT_INT,
  AT_REAL and AT_BLOB fall through to the AT_APPL arm, which casts t to an
  application and returns ATgetArity(ATgetSymbol(t)); the default branch is
  return NULL inside an int-typed function, so the caller receives 0.
* next_subterm(t, n): same four case labels, all falling through to
  return ATgetArgument((ATermAppl) t, n) with no bounds or kind check; the
  default branch returns the NULL pointer.

The embedding models ATerm values as an inductive type, the library
accessors ATgetSymbol / ATgetArity / ATgetArgument with Option results
where the library leaves the access undefined (reading the symbol of a
non-application, reading an argument out of range), and the two source
functions over them. Parts of the specified engine that have no code in the
repository (the Store with interning, the builder apply, the children
enumeration) are modelled from the spec and marked as such.
-/

namespace Blaze

/-- Function symbols of the ATerm library: a name together with a fixed
declared arity, canonical per (name, arity) pair. -/
structure Symbol where
  name : String
  arity : Nat
deriving DecidableEq, Repr

/-- Tagged terms of the ATerm library. Applications carry a symbol and an
ordered child list; list terms and placeholders are the library's remaining
term kinds, the ones that reach the default branch of both source
functions. Scalar payloads (the integer value, the real's bits, the blob's
bytes) are carried opaquely; no claim computes with them. -/
inductive ATerm where
  | int (v : Int)
  | real (v : Int)
  | blob (bytes : List Nat)
  | appl (sym : Symbol) (args : List ATerm)
  | list (elems : List ATerm)
  | placeholder (ph : ATerm)
deriving Repr

mutual

/-- Decidable structural equality of terms, written by hand because the
nested child list defeats automatic derivation. -/
def ATerm.deq : (a b : ATerm) → Decidable (a = b)
  | .int a, .int b =>
    match decEq a b with
    | isTrue h => isTrue (by rw [h])
    | isFalse h => isFalse (by intro hc; cases hc; exact h rfl)
  | .real a, .real b =>
    match decEq a b with
    | isTrue h => isTrue (by rw [h])
    | isFalse h => isFalse (by intro hc; cases hc; exact h rfl)
  | .blob a, .blob b =>
    match decEq a b with
    | isTrue h => isTrue (by rw [h])
    | isFalse h => isFalse (by intro hc; cases hc; exact h rfl)
  | .appl s a, .appl s2 b =>
    match decEq s s2, ATerm.deqList a b with
    | isTrue h1, isTrue h2 => isTrue (by rw [h1, h2])
    | isFalse h1, _ => isFalse (by intro hc; cases hc; exact h1 rfl)
    | _, isFalse h2 => isFalse (by intro hc; cases hc; exact h2 rfl)
  | .list a, .list b =>
    match ATerm.deqList a b with
    | isTrue h => isTrue (by rw [h])
    | isFalse h => isFalse (by intro hc; cases hc; exact h rfl)
  | .placeholder a, .placeholder b =>
    match ATerm.deq a b with
    | isTrue h => isTrue (by rw [h])
    | isFalse h => isFalse (by intro hc; cases hc; exact h rfl)
  | .int _, .real _ => isFalse (by intro hc; cases hc)
  | .int _, .blob _ => isFalse (by intro hc; cases hc)
  | .int _, .appl _ _ => isFalse (by intro hc; cases hc)
  | .int _, .list _ => isFalse (by intro hc; cases hc)
  | .int _, .placeholder _ => isFalse (by intro hc; cases hc)
  | .real _, .int _ => isFalse (by intro hc; cases hc)
  | .real _, .blob _ => isFalse (by intro hc; cases hc)
  | .real _, .appl _ _ => isFalse (by intro hc; cases hc)
  | .real _, .list _ => isFalse (by intro hc; cases hc)
  | .real _, .placeholder _ => isFalse (by intro hc; cases hc)
  | .blob _, .int _ => isFalse (by intro hc; cases hc)
  | .blob _, .real _ => isFalse (by intro hc; cases hc)
  | .blob _, .appl _ _ => isFalse (by intro hc; cases hc)
  | .blob _, .list _ => isFalse (by intro hc; cases hc)
  | .blob _, .placeholder _ => isFalse (by intro hc; cases hc)
  | .appl _ _, .int _ => isFalse (by intro hc; cases hc)
  | .appl _ _, .real _ => isFalse (by intro hc; cases hc)
  | .appl _ _, .blob _ => isFalse (by intro hc; cases hc)
  | .appl _ _, .list _ => isFalse (by intro hc; cases hc)
  | .appl _ _, .placeholder _ => isFalse (by intro hc; cases hc)
  | .list _, .int _ => isFalse (by intro hc; cases hc)
  | .list _, .real _ => isFalse (by intro hc; cases hc)
  | .list _, .blob _ => isFalse (by intro hc; cases hc)
  | .list _, .appl _ _ => isFalse (by intro hc; cases hc)
  | .list _, .placeholder _ => isFalse (by intro hc; cases hc)
  | .placeholder _, .int _ => isFalse (by intro hc; cases hc)
  | .placeholder _, .real _ => isFalse (by intro hc; cases hc)
  | .placeholder _, .blob _ => isFalse (by intro hc; cases hc)
  | .placeholder _, .appl _ _ => isFalse (by intro hc; cases hc)
  | .placeholder _, .list _ => isFalse (by intro hc; cases hc)

/-- Decidable structural equality of child lists, mutual with ATerm.deq. -/
def ATerm.deqList : (a b : List ATerm) → Decidable (a = b)
  | [], [] => isTrue rfl
  | x :: xs, y :: ys =>
    match ATerm.deq x y, ATerm.deqList xs ys with
    | isTrue h1, isTrue h2 => isTrue (by rw [h1, h2])
    | isFalse h1, _ => isFalse (by intro hc; cases hc; exact h1 rfl)
    | _, isFalse h2 => isFalse (by intro hc; cases hc; exact h2 rfl)
  | [], _ :: _ => isFalse (by intro hc; cases hc)
  | _ :: _, [] => isFalse (by intro hc; cases hc)

end

instance : DecidableEq ATerm := ATerm.deq

/-- Header type tags of the ATerm library, the values GET_TYPE can yield.
The source's switch names AT_INT, AT_REAL, AT_BLOB and AT_APPL; the other
tags are the library's remaining kinds and land in the default branch. -/
inductive ATermType where
  | AT_FREE
  | AT_APPL
  | AT_INT
  | AT_REAL
  | AT_LIST
  | AT_PLACEHOLDER
  | AT_BLOB
  | AT_SYMBOL
deriving DecidableEq, Repr

/-- Reading GET_TYPE(t->header): the type tag packed in a term's header. -/
def GET_TYPE : ATerm → ATermType
  | .int _ => .AT_INT
  | .real _ => .AT_REAL
  | .blob _ => .AT_BLOB
  | .appl _ _ => .AT_APPL
  | .list _ => .AT_LIST
  | .placeholder _ => .AT_PLACEHOLDER

/-- Library accessor ATgetSymbol: the symbol of an application term. The
source applies it behind the cast (ATermAppl) t; for a term that is not an
application the read has no defined result, modelled as none. -/
def ATgetSymbol : ATerm → Option Symbol
  | .appl s _ => some s
  | _ => none

/-- Library accessor ATgetArity: the declared arity of a symbol. -/
def ATgetArity (s : Symbol) : Nat :=
  s.arity

/-- Library accessor ATgetArgument(t, n): the n-th argument of an
application term, defined only for an application and 0 <= n < arity; any
other access has no defined result, modelled as none. -/
def ATgetArgument : ATerm → Int → Option ATerm
  | .appl _ args, n => if 0 ≤ n then args[n.toNat]? else none
  | _, _ => none

/-- Value a caller receives from the statement return NULL inside the
int-typed function subterms: the null pointer constant converted to the
integer 0. -/
def NULL_as_int : Int := 0

/-- Embedding of subterms from src/blaze/expr/utils.h. The switch is on
GET_TYPE(t->header); the AT_INT, AT_REAL and AT_BLOB labels fall through to
the AT_APPL arm, which evaluates ATgetArity(ATgetSymbol((ATermAppl) t))
(undefined, hence none, when t is not an application); the default branch
is return NULL, which the int return type turns into the value 0. -/
def subterms (t : ATerm) : Option Int :=
  match GET_TYPE t with
  | .AT_INT | .AT_REAL | .AT_BLOB | .AT_APPL =>
    (ATgetSymbol t).map (fun sym => ((ATgetArity sym : Nat) : Int))
  | _ => some NULL_as_int

/-- Embedding of next_subterm from src/blaze/expr/utils.h. The switch is on
GET_TYPE(t->header); the four case labels all fall through to
return ATgetArgument((ATermAppl) t, n) with no bounds or kind check; the
default branch returns the NULL pointer, modelled as none. -/
def next_subterm (t : ATerm) (n : Int) : Option ATerm :=
  match GET_TYPE t with
  | .AT_INT | .AT_REAL | .AT_BLOB | .AT_APPL => ATgetArgument t n
  | _ => none

/-- Condition selecting the shared non-default arm of both switches in the
source: the header type is one of the four explicit case labels. -/
def dispatchHit (ty : ATermType) : Bool :=
  match ty with
  | .AT_INT | .AT_REAL | .AT_BLOB | .AT_APPL => true
  | _ => false

/-- Mirror of the switch in subterms: true exactly when evaluating
subterms t reaches the default branch. -/
def subtermsTakesDefault (t : ATerm) : Bool :=
  match GET_TYPE t with
  | .AT_INT | .AT_REAL | .AT_BLOB | .AT_APPL => false
  | _ => true

/-- Mirror of the switch in next_subterm: true exactly when evaluating
next_subterm t n reaches the default branch. The dispatch inspects only the
header type; the index argument plays no part in branch selection. -/
def next_subtermTakesDefault (t : ATerm) (_n : Int) : Bool :=
  match GET_TYPE t with
  | .AT_INT | .AT_REAL | .AT_BLOB | .AT_APPL => false
  | _ => true

/-- Value computed by the shared case arm of the switch in subterms, the
arm the AT_APPL label and, by fallthrough, the AT_INT, AT_REAL and AT_BLOB
labels all select: cast to application, then ATgetArity of ATgetSymbol. -/
def applBranchValue (t : ATerm) : Option Int :=
  (ATgetSymbol t).map (fun sym => ((ATgetArity sym : Nat) : Int))

/-- Modelled from the spec: the Term Builder operation apply(symbol, cs) of
section 4.4, absent from src/. It constructs an Application term and fails
(ArityMismatch, modelled as none) when the child-sequence length disagrees
with the symbol's declared arity; interning is the separate intern below. -/
def apply (s : Symbol) (cs : List ATerm) : Option ATerm :=
  if s.arity = cs.length then some (ATerm.appl s cs) else none

/-- Modelled from the spec: the Term Store of section 4.1, absent from
src/, as the ordered list of interned slots; a handle is an index into that
list. -/
structure Store where
  slots : List ATerm
deriving DecidableEq, Repr

/-- Modelled from the spec: intern of section 4.1, absent from src/. Given
a term it returns the handle of the first slot holding a structurally equal
term when one exists, and otherwise appends the term as a new slot; the
result is the handle paired with the possibly grown store. -/
def intern (st : Store) (t : ATerm) : Nat × Store :=
  match st.slots.findIdx? (fun u => u == t) with
  | some i => (i, st)
  | none => (st.slots.length, ⟨st.slots ++ [t]⟩)

/-- Modelled from the spec: the engine's operations pass the Store
explicitly so that frame effects are visible in the types. This lifts the
source's child accessor next_subterm to that store-passing form; the source
function reads only the term, so the store is passed through untouched. -/
def next_subtermS (st : Store) (t : ATerm) (n : Int) : Option ATerm × Store :=
  (next_subterm t n, st)

/-- Modelled from the spec: the enumeration loop behind children(term) of
section 4.3, absent from src/: one store-threaded call of the child
accessor per index in the given index list. -/
def childrenAux : Store → ATerm → List Nat → List (Option ATerm) × Store
  | st, _, [] => ([], st)
  | st, t, i :: is =>
    let p := next_subtermS st t (i : Int)
    let rest := childrenAux p.2 t is
    (p.1 :: rest.1, rest.2)

/-- Modelled from the spec: children(term) of section 4.3, absent from
src/: enumerate the children in declaration order by calling the child
accessor at indices 0 .. arity-1, where the arity is the source's
subterms value, threading the store through every call. -/
def childrenS (st : Store) (t : ATerm) : List (Option ATerm) × Store :=
  childrenAux st t (List.range ((subterms t).getD 0).toNat)

/-! Helper lemmas shared by the claim theorems. -/

/-- Unfolding subterms on an application: the arity of the symbol. -/
theorem subterms_appl (s : Symbol) (cs : List ATerm) :
    subterms (ATerm.appl s cs) = some ((s.arity : Nat) : Int) := rfl

/-- Unfolding next_subterm on an application at a natural index. -/
theorem next_subterm_appl_nat (s : Symbol) (cs : List ATerm) (i : Nat) :
    next_subterm (ATerm.appl s cs) (i : Int) = cs[i]? := by
  simp [next_subterm, GET_TYPE, ATgetArgument]

/-- Mapping the optional indexing function over the index range of a list
recovers the list itself, wrapped in some. -/
theorem range_map_getElem? {α : Type} (l : List α) :
    (List.range l.length).map (fun i => l[i]?) = l.map some := by
  induction l with
  | nil => rfl
  | cons x xs ih =>
    rw [List.length_cons, List.range_succ_eq_map, List.map_cons, List.map_map]
    simp only [Function.comp_def, List.getElem?_cons_succ, List.getElem?_cons_zero,
      List.map_cons]
    rw [ih]

/-- Finding nothing in a list means the search in the list extended by the
sought element lands exactly on the appended slot. -/
theorem findIdx?_append_self (l : List ATerm) (t : ATerm)
    (h : l.findIdx? (fun u => u == t) = none) :
    (l ++ [t]).findIdx? (fun u => u == t) = some l.length := by
  rw [List.findIdx?_append, h]
  simp [List.findIdx?, beq_self_eq_true']

/-- Store threading in the enumeration loop: the store comes back exactly
as it went in, and the produced sequence does not depend on the store. -/
theorem childrenAux_pure (t : ATerm) (is : List Nat) :
    ∀ st st' : Store,
      (childrenAux st t is).2 = st ∧ (childrenAux st t is).1 = (childrenAux st' t is).1 := by
  induction is with
  | nil => intro st st'; exact ⟨rfl, rfl⟩
  | cons i is ih =>
    intro st st'
    simp only [childrenAux, next_subtermS]
    exact ⟨(ih st st').1, by rw [(ih st st').2]⟩

/-! Claim theorems. -/

/-- Claim C1, code-bug evidence: the spec requires the arity accessor to
return the ordinary integer 0 on atomic scalar terms, but the source routes
AT_INT through the application arm, whose ATgetSymbol read is undefined on
a non-application; at integer(5) the embedded subterms has no defined
integer result and in particular does not produce 0. -/
theorem subterms_int_not_zero :
    subterms (ATerm.int 5) = none ∧ subterms (ATerm.int 5) ≠ some 0 := by
  decide

/-- Claim C2, code-bug evidence: the spec requires the child accessor to
fail with IndexOutOfRange on out-of-range indices and with NotApplicable on
atomic scalars, but the source's next_subterm carries no error type at all:
at an application of arity 1 with index 5 or index -1, and at integer(7)
with index 0, it yields no typed error, only an undefined or sentinel
pointer result. -/
theorem next_subterm_no_typed_errors :
    next_subterm (ATerm.appl ⟨"f", 1⟩ [ATerm.int 1]) 5 = none ∧
    next_subterm (ATerm.appl ⟨"f", 1⟩ [ATerm.int 1]) (-1) = none ∧
    next_subterm (ATerm.int 7) 0 = none := by
  decide

/-- Claim C3, code-bug evidence: the spec requires every accessor error to
be a typed result distinguishable from any valid result, but the source
signals the default-branch error of subterms with NULL converted to the
int 0, the very value a legitimate arity-0 application also produces, and
next_subterm signals it with the NULL pointer. -/
theorem accessor_errors_untyped_sentinels :
    subterms (ATerm.placeholder (ATerm.int 0)) = some NULL_as_int ∧
    NULL_as_int = 0 ∧
    subterms (ATerm.appl ⟨"c", 0⟩ []) = some 0 ∧
    subterms (ATerm.placeholder (ATerm.int 0)) = subterms (ATerm.appl ⟨"c", 0⟩ []) ∧
    next_subterm (ATerm.placeholder (ATerm.int 0)) 0 = none := by
  decide

/-- Claim C4: the int-typed subterms signals inapplicable term kinds by
returning NULL from its default branch, and that null-like sentinel,
converted to the integer 0, is indistinguishable from the valid arity-0
answer a nullary application receives. -/
theorem subterms_default_returns_null_sentinel :
    subtermsTakesDefault (ATerm.list []) = true ∧
    subterms (ATerm.list []) = some NULL_as_int ∧
    NULL_as_int = (0 : Int) ∧
    subterms (ATerm.appl ⟨"nil", 0⟩ []) = some (0 : Int) ∧
    subterms (ATerm.list []) = subterms (ATerm.appl ⟨"nil", 0⟩ []) := by
  decide

/-- Claim C5: a term built by apply from a symbol and a child sequence has
arity exactly the length of that sequence, and enumerating the child
accessor at indices 0 .. arity-1 yields exactly the children in
declaration order. -/
theorem apply_arity_children (s : Symbol) (cs : List ATerm) (t : ATerm)
    (h : apply s cs = some t) :
    subterms t = some ((cs.length : Nat) : Int) ∧
    (List.range cs.length).map (fun i : Nat => next_subterm t (i : Int)) = cs.map some := by
  unfold apply at h
  split at h
  · rename_i harity
    cases h
    refine ⟨?_, ?_⟩
    · rw [subterms_appl, harity]
    · have hfun : (fun i : Nat => next_subterm (ATerm.appl s cs) (i : Int)) =
          fun i : Nat => cs[i]? := funext fun i => next_subterm_appl_nat s cs i

      rw [hfun, range_map_getElem?]
  · cases h

/-- Claim C5 witness: the theorem at the spec's own scenario, a binary
symbol f applied to the children integer(1) and integer(2). -/
theorem apply_arity_children_witness :
    apply ⟨"f", 2⟩ [ATerm.int 1, ATerm.int 2] =
      some (ATerm.appl ⟨"f", 2⟩ [ATerm.int 1, ATerm.int 2]) ∧
    (subterms (ATerm.appl ⟨"f", 2⟩ [ATerm.int 1, ATerm.int 2]) =
        some (([ATerm.int 1, ATerm.int 2].length : Nat) : Int) ∧
      (List.range [ATerm.int 1, ATerm.int 2].length).map
          (fun i : Nat =>
            next_subterm (ATerm.appl ⟨"f", 2⟩ [ATerm.int 1, ATerm.int 2]) (i : Int)) =
        [ATerm.int 1, ATerm.int 2].map some) :=
  ⟨by decide, apply_arity_children ⟨"f", 2⟩ [ATerm.int 1, ATerm.int 2] _ (by decide)⟩

/-- Claim C6: interning is idempotent on structurally equal terms. After a
first intern of t, interning a structurally equal u returns the very same
handle and leaves the store untouched, so structural equality of the
constructed terms implies identity of their handles. -/
theorem intern_structural_eq_handle (st : Store) (t u : ATerm) (h : t = u) :
    (intern (intern st t).2 u).1 = (intern st t).1 ∧
    (intern (intern st t).2 u).2 = (intern st t).2 := by
  subst h
  cases hf : st.slots.findIdx? (fun u => u == t) with
  | some i => simp [intern, hf]
  | none => simp [intern, hf, findIdx?_append_self st.slots t hf]

/-- Claim C6 witness: two construction calls of f(integer(1), integer(2))
against the empty store return the same handle. -/
theorem intern_structural_eq_handle_witness :
    ATerm.appl ⟨"f", 2⟩ [ATerm.int 1, ATerm.int 2] =
      ATerm.appl ⟨"f", 2⟩ [ATerm.int 1, ATerm.int 2] ∧
    ((intern (intern ⟨[]⟩ (ATerm.appl ⟨"f", 2⟩ [ATerm.int 1, ATerm.int 2])).2
          (ATerm.appl ⟨"f", 2⟩ [ATerm.int 1, ATerm.int 2])).1 =
        (intern ⟨[]⟩ (ATerm.appl ⟨"f", 2⟩ [ATerm.int 1, ATerm.int 2])).1 ∧
      (intern (intern ⟨[]⟩ (ATerm.appl ⟨"f", 2⟩ [ATerm.int 1, ATerm.int 2])).2
          (ATerm.appl ⟨"f", 2⟩ [ATerm.int 1, ATerm.int 2])).2 =
        (intern ⟨[]⟩ (ATerm.appl ⟨"f", 2⟩ [ATerm.int 1, ATerm.int 2])).2) :=
  ⟨rfl, intern_structural_eq_handle ⟨[]⟩ _ _ rfl⟩

/-- Claim C7: child enumeration is side-effect free and restartable. The
store comes back from childrenS exactly as it went in, and the sequence
produced does not depend on the store it is run against, so re-iteration
from the same immutable term yields the same finite sequence. -/
theorem childrenS_effect_free_restartable (st st' : Store) (t : ATerm) :
    (childrenS st t).2 = st ∧ (childrenS st t).1 = (childrenS st' t).1 :=
  childrenAux_pure t (List.range ((subterms t).getD 0).toNat) st st'

/-- Claim C8: on every term whose header type is AT_INT, AT_REAL or
AT_BLOB, subterms computes exactly the value of the shared application
arm, ATgetArity of ATgetSymbol of the cast term; atomic scalars get no
dedicated zero or sentinel distinct from the application path. -/
theorem subterms_atomic_uses_appl_branch (t : ATerm)
    (h : GET_TYPE t = ATermType.AT_INT ∨ GET_TYPE t = ATermType.AT_REAL ∨
      GET_TYPE t = ATermType.AT_BLOB) :
    subterms t = applBranchValue t := by
  cases t <;> simp_all [GET_TYPE, subterms, applBranchValue]

/-- Claim C8 witness: the theorem at integer(5), whose header type is
AT_INT. -/
theorem subterms_atomic_uses_appl_branch_witness :
    (GET_TYPE (ATerm.int 5) = ATermType.AT_INT ∨
      GET_TYPE (ATerm.int 5) = ATermType.AT_REAL ∨
      GET_TYPE (ATerm.int 5) = ATermType.AT_BLOB) ∧
    subterms (ATerm.int 5) = applBranchValue (ATerm.int 5) :=
  ⟨by decide, subterms_atomic_uses_appl_branch (ATerm.int 5) (by decide)⟩

/-- Claim C9: next_subterm performs no bounds or kind check; on every term
whose header type is one of the four case labels it delegates to
ATgetArgument unchanged, for every index, negative and out-of-range ones
included. -/
theorem next_subterm_delegates_unchecked (t : ATerm) (n : Int)
    (h : dispatchHit (GET_TYPE t) = true) :
    next_subterm t n = ATgetArgument t n := by
  cases t <;> simp_all [GET_TYPE, dispatchHit, next_subterm]

/-- Claim C9 witness: the theorem at an application of arity 1 with the
negative index -1 and the out-of-range index 5. -/
theorem next_subterm_delegates_unchecked_witness :
    dispatchHit (GET_TYPE (ATerm.appl ⟨"g", 1⟩ [ATerm.int 3])) = true ∧
    next_subterm (ATerm.appl ⟨"g", 1⟩ [ATerm.int 3]) (-1) =
      ATgetArgument (ATerm.appl ⟨"g", 1⟩ [ATerm.int 3]) (-1) ∧
    next_subterm (ATerm.appl ⟨"g", 1⟩ [ATerm.int 3]) 5 =
      ATgetArgument (ATerm.appl ⟨"g", 1⟩ [ATerm.int 3]) 5 :=
  ⟨by decide, next_subterm_delegates_unchecked _ (-1) (by decide),
    next_subterm_delegates_unchecked _ 5 (by decide)⟩

/-- Claim C10: the two functions partition term kinds identically; the
switch of subterms selects its default branch on exactly the terms on
which the switch of next_subterm selects its default branch at every
index. -/
theorem subterms_next_subterm_same_partition (t : ATerm) :
    subtermsTakesDefault t = true ↔
      ∀ n : Int, next_subtermTakesDefault t n = true := by
  cases t <;> simp [subtermsTakesDefault, next_subtermTakesDefault, GET_TYPE]

end Blaze
